import Mathlib

/-
Shallow embedding of the HALPI2 daemon core:
  * halpi/i2c.py   — register protocol, analog scaling, DFU update engine
  * halpi/state_machine.py — power-supervision state machine
Pure fragments of the Python source are translated into executable Lean
definitions; stateful loops become explicit recursion over lists of
observed inputs (poll observations, polling-cycle inputs).  Machine
integers are modelled as Nat/Int, voltages and times as rationals.
-/

set_option maxRecDepth 40000

namespace Halpi

/-! ## Byte-level encodings (struct.pack) -/

/-- Big-endian 2-byte encoding, as produced by `struct.pack(">H", n)` for
`n < 65536`: high byte then low byte. -/
def u16be (n : Nat) : List Nat := [n >>> 8, n &&& 0xFF]

/-- Big-endian 4-byte encoding, as produced by `struct.pack(">I", n)` for
`n < 2 ^ 32`. -/
def u32be (n : Nat) : List Nat :=
  [n >>> 24 &&& 0xFF, n >>> 16 &&& 0xFF, n >>> 8 &&& 0xFF, n &&& 0xFF]

/-! ## CRC32 (binascii.crc32)

Modelled from the spec: `binascii.crc32` is an external library routine; it
is the standard CRC-32 (reflected polynomial 0xEDB88320, initial value
0xFFFFFFFF, final xor 0xFFFFFFFF), which the spec calls "a reference CRC32
implementation". -/

/-- One bit step of the reflected CRC-32. -/
def crc32Step (c : Nat) : Nat :=
  if c % 2 = 1 then (c / 2) ^^^ 0xEDB88320 else c / 2

/-- Fold one input byte into the CRC-32 accumulator. -/
def crc32Byte (c b : Nat) : Nat :=
  (crc32Step)^[8] (c ^^^ (b % 256))

/-- CRC-32 of a byte sequence, as returned by
`binascii.crc32(data) & 0xFFFFFFFF`. -/
def crc32 (l : List Nat) : Nat :=
  (l.foldl crc32Byte 0xFFFFFFFF) ^^^ 0xFFFFFFFF

/-! ## DFU states and status decoding (halpi/i2c.py) -/

/-- The DFU state enumeration of halpi/i2c.py (values 0..8). -/
inductive DFUState
  | IDLE
  | PREPARING
  | UPDATING
  | QUEUE_FULL
  | READY_TO_COMMIT
  | CRC_ERROR
  | DATA_LENGTH_ERROR
  | WRITE_ERROR
  | PROTOCOL_ERROR
deriving DecidableEq

/-- Decoding of the status byte read from register 0x41
(`get_dfu_status` in halpi/i2c.py): a byte inside the enum range maps to
its enum member, any other byte maps to PROTOCOL_ERROR. -/
def get_dfu_status (b : Nat) : DFUState :=
  if b = 0 then .IDLE
  else if b = 1 then .PREPARING
  else if b = 2 then .UPDATING
  else if b = 3 then .QUEUE_FULL
  else if b = 4 then .READY_TO_COMMIT
  else if b = 5 then .CRC_ERROR
  else if b = 6 then .DATA_LENGTH_ERROR
  else if b = 7 then .WRITE_ERROR
  else if b = 8 then .PROTOCOL_ERROR
  else .PROTOCOL_ERROR

/-! ## Per-block readiness gate (`wait_for_dfu_ready`)

The Python loop polls `get_dfu_status` until a decision is reached or the
timeout elapses.  Each poll is modelled as a pair
(elapsed time at the loop-head check, raw status byte); the loop becomes
recursion over the list of polls.  `none` means the modelled observation
list was exhausted before the loop decided. -/

/-- One run of the readiness-gate polling loop of `wait_for_dfu_ready`
(halpi/i2c.py): `some true` = ready, `some false` = error or timeout,
`none` = the modelled poll list ran out before a decision. -/
def wait_for_dfu_ready (timeout : ℚ) : List (ℚ × Nat) → Option Bool
  | [] => none
  | (t, b) :: rest =>
    if t < timeout then
      let status := get_dfu_status b
      if status = .UPDATING then some true
      else if status = .READY_TO_COMMIT then some true
      else if status = .CRC_ERROR ∨ status = .PROTOCOL_ERROR ∨ status = .WRITE_ERROR then
        some false
      else if status = .PREPARING then wait_for_dfu_ready timeout rest
      else if status = .QUEUE_FULL then wait_for_dfu_ready timeout rest
      else if status = .IDLE then some false
      else wait_for_dfu_ready timeout rest
    else some false

/-- Classification of a single gate poll that lets the loop keep polling:
inside the time window and decoded as PREPARING, QUEUE_FULL, or
DATA_LENGTH_ERROR (the fall-through case of the Python branch chain). -/
def gate_poll_continue (timeout : ℚ) (p : ℚ × Nat) : Prop :=
  p.1 < timeout ∧
    (get_dfu_status p.2 = .PREPARING ∨ get_dfu_status p.2 = .QUEUE_FULL ∨
      get_dfu_status p.2 = .DATA_LENGTH_ERROR)

/-- Classification of a gate poll on which the loop returns True:
inside the time window and decoded as UPDATING or READY_TO_COMMIT. -/
def gate_poll_proceed (timeout : ℚ) (p : ℚ × Nat) : Prop :=
  p.1 < timeout ∧
    (get_dfu_status p.2 = .UPDATING ∨ get_dfu_status p.2 = .READY_TO_COMMIT)

/-- Classification of a gate poll on which the loop returns False: the
time window has elapsed, or the status decodes to CRC_ERROR,
PROTOCOL_ERROR, WRITE_ERROR, or IDLE. -/
def gate_poll_fail (timeout : ℚ) (p : ℚ × Nat) : Prop :=
  ¬ p.1 < timeout ∨
    (p.1 < timeout ∧
      (get_dfu_status p.2 = .CRC_ERROR ∨ get_dfu_status p.2 = .PROTOCOL_ERROR ∨
        get_dfu_status p.2 = .WRITE_ERROR ∨ get_dfu_status p.2 = .IDLE))

/-! ## Post-transfer drain loop of `upload_firmware_with_progress`

Each drain cycle observes (elapsed time at the while-condition check,
status byte from register 0x41, blocks-written word from register 0x42).
The Python `while ... else` shape: breaking out leads to commit, falling
out of the condition leads to timeout abort. -/

/-- Outcome of the post-transfer drain loop. -/
inductive DrainOutcome
  | breakCommit
  | abortError
  | abortTimeout
  | exhausted
deriving DecidableEq

/-- The post-transfer drain loop of `upload_firmware_with_progress`
(halpi/i2c.py, the 5-second `while ... else` loop): break on
READY_TO_COMMIT with matching block count, abort on CRC_ERROR,
PROTOCOL_ERROR or WRITE_ERROR, timeout-abort once the while condition
fails; `exhausted` means the modelled observation list ran out. -/
def drain_loop (total : Nat) : List (ℚ × Nat × Nat) → DrainOutcome
  | [] => .exhausted
  | (t, sb, bw) :: rest =>
    if t < 5 then
      let status := get_dfu_status sb
      if status = .READY_TO_COMMIT ∧ bw = total then .breakCommit
      else if status = .CRC_ERROR ∨ status = .PROTOCOL_ERROR ∨ status = .WRITE_ERROR then
        .abortError
      else drain_loop total rest
    else .abortTimeout

/-- Classification of a drain observation that lets the loop keep polling:
inside the 5-second window, not the break condition, not an abort status. -/
def drain_poll_continue (total : Nat) (p : ℚ × Nat × Nat) : Prop :=
  p.1 < 5 ∧
    ¬(get_dfu_status p.2.1 = .READY_TO_COMMIT ∧ p.2.2 = total) ∧
    ¬(get_dfu_status p.2.1 = .CRC_ERROR ∨ get_dfu_status p.2.1 = .PROTOCOL_ERROR ∨
      get_dfu_status p.2.1 = .WRITE_ERROR)

/-- Classification of a drain observation on which the loop breaks to
commit: inside the window, status READY_TO_COMMIT, blocks-written equal to
the total block count. -/
def drain_poll_commit (total : Nat) (p : ℚ × Nat × Nat) : Prop :=
  p.1 < 5 ∧ get_dfu_status p.2.1 = .READY_TO_COMMIT ∧ p.2.2 = total

/-- Classification of a drain observation on which the loop aborts with an
error: inside the window and decoded as CRC_ERROR, PROTOCOL_ERROR, or
WRITE_ERROR. -/
def drain_poll_error (total : Nat) (p : ℚ × Nat × Nat) : Prop :=
  p.1 < 5 ∧
    (get_dfu_status p.2.1 = .CRC_ERROR ∨ get_dfu_status p.2.1 = .PROTOCOL_ERROR ∨
      get_dfu_status p.2.1 = .WRITE_ERROR)

/-! ## Firmware upload entry point (`upload_firmware_with_progress`) -/

/-- The flash block size constant of halpi/i2c.py. -/
def FLASH_BLOCK_SIZE : Nat := 4096

/-- Side effects of the upload entry point that matter to its contract. -/
inductive Effect
  | startUpdate (size : Nat)
  | blockWrite (blockNum : Nat) (data : List Nat)
  | progressCall (done total : Nat)
  | commit
  | abort
deriving DecidableEq

/-- Environment of one upload run: for each block index the readiness-gate
poll observations of that block's `wait_for_dfu_ready` call, and the
observations of the post-transfer drain loop. -/
structure UploadEnv where
  gatePolls : Nat → List (ℚ × Nat)
  drainPolls : List (ℚ × Nat × Nat)

/-- Total block count of `upload_firmware_with_progress`:
ceil(image size / 4096), computed in the source as
`(len + FLASH_BLOCK_SIZE - 1) // FLASH_BLOCK_SIZE`. -/
def total_blocks (size : Nat) : Nat :=
  (size + FLASH_BLOCK_SIZE - 1) / FLASH_BLOCK_SIZE

/-- The enumerated blocks of a firmware image:
block i is `firmware_data[i*4096 : (i+1)*4096]`. -/
def block_list (fw : List Nat) : List (Nat × List Nat) :=
  (List.range (total_blocks fw.length)).map
    (fun i => (i, (fw.drop (i * FLASH_BLOCK_SIZE)).take FLASH_BLOCK_SIZE))

/-- The per-block loop and final drain/commit phase of
`upload_firmware_with_progress`.  The callback is modelled as an optional
function returning `true` when the call raises; a raising callback is
caught by the enclosing `except Exception` handler, which issues a
best-effort abort and returns failure.  `none` means a modelled
observation list was exhausted. -/
def upload_blocks (env : UploadEnv) (cb : Option (Nat → Nat → Bool)) (total : Nat) :
    List (Nat × List Nat) → Option (Bool × List Effect)
  | [] =>
    match drain_loop total env.drainPolls with
    | .breakCommit => some (true, [.commit])
    | .abortError => some (false, [.abort])
    | .abortTimeout => some (false, [.abort])
    | .exhausted => none
  | (i, d) :: rest =>
    match wait_for_dfu_ready 30 (env.gatePolls i) with
    | none => none
    | some false => some (false, [.abort])
    | some true =>
      match cb with
      | none =>
        (upload_blocks env cb total rest).map
          (fun r => (r.1, .blockWrite i d :: r.2))
      | some raises =>
        if raises (i + 1) total then
          some (false, [.blockWrite i d, .progressCall (i + 1) total, .abort])
        else
          (upload_blocks env cb total rest).map
            (fun r => (r.1, .blockWrite i d :: .progressCall (i + 1) total :: r.2))

/-- The upload entry point `upload_firmware_with_progress`
(halpi/i2c.py): start the update, upload every block behind its readiness
gate, run the drain loop, then commit; any failure path issues an abort
and returns `false`. -/
def upload_firmware_with_progress (fw : List Nat) (cb : Option (Nat → Nat → Bool))
    (env : UploadEnv) : Option (Bool × List Effect) :=
  (upload_blocks env cb (total_blocks fw.length) (block_list fw)).map
    (fun r => (r.1, .startUpdate fw.length :: r.2))

/-! ## DFU block framing (`upload_firmware_block`) -/

/-- The wire message built by `upload_firmware_block` (halpi/i2c.py):
`payload = struct.pack(">HH", block_num, len(data)) + data`,
`message = struct.pack(">I", crc32(payload)) + payload`. -/
def upload_firmware_block_message (block_num : Nat) (data : List Nat) : List Nat :=
  let payload := u16be block_num ++ u16be data.length ++ data
  u32be (crc32 payload) ++ payload

/-! ## Raw write layer and validation (halpi/i2c.py)

Each write operation is modelled as the list of bus transactions it
performs together with an `Except` outcome; a raised validation error
yields an empty transaction list because in the source the check precedes
the `bus.i2c_rdwr` call. -/

/-- One bus write transaction: a register address followed by the data
values handed to the transport. -/
inductive BusWrite
  | regBytes (reg : Nat) (vals : List Int)
deriving DecidableEq

/-- `i2c_write_byte` (halpi/i2c.py): writes the register address and then
the single value; this layer performs no range validation on the value. -/
def i2c_write_byte (reg : Nat) (val : Int) : List BusWrite × Except String Unit :=
  ([.regBytes reg [val]], .ok ())

/-- `i2c_write_bytes` (halpi/i2c.py): raises ValueError before any bus
transaction unless every value is in the range 0-255. -/
def i2c_write_bytes (reg : Nat) (vals : List Int) : List BusWrite × Except String Unit :=
  if vals.all (fun v => decide (0 ≤ v ∧ v < 256)) then ([.regBytes reg vals], .ok ())
  else ([], .error "All values must be in the range 0-255")

/-- `set_led_brightness` (halpi/i2c.py): a single-byte register write of
the brightness value to register 0x17 through `i2c_write_byte`. -/
def set_led_brightness (brightness : Int) : List BusWrite × Except String Unit :=
  i2c_write_byte 0x17 brightness

/-- `upload_firmware_block` (halpi/i2c.py) as a write operation: raises
ValueError before any bus transaction when the block exceeds
FLASH_BLOCK_SIZE bytes, otherwise writes the framed message to register
0x43 through `i2c_write_bytes`. -/
def upload_firmware_block (block_num : Nat) (data : List Nat) :
    List BusWrite × Except String Unit :=
  if FLASH_BLOCK_SIZE < data.length then
    ([], .error "Block size exceeds maximum")
  else
    i2c_write_bytes 0x43 ((upload_firmware_block_message block_num data).map
      (fun b => (b : Int)))

/-! ## Analog register encoding (halpi/i2c.py)

A bus is modelled abstractly by its reply function: for a register address
and a requested byte count, the bytes the device returns. -/

/-- Reply function of the bus: register address and requested length to
returned bytes. -/
def Bus := Nat → Nat → List Nat

/-- `i2c_query_byte`: read one byte from a register. -/
def i2c_query_byte (bus : Bus) (reg : Nat) : Nat :=
  (bus reg 1).headD 0

/-- `i2c_query_word`: read two bytes from a register and combine them
big-endian (`(byte_vals[0] << 8) | byte_vals[1]`). -/
def i2c_query_word (bus : Bus) (reg : Nat) : Nat :=
  ((bus reg 2).getD 0 0) <<< 8 ||| ((bus reg 2).getD 1 0)

/-- `read_analog_byte`: `scale * raw / 256` with a one-byte raw value. -/
def read_analog_byte (bus : Bus) (reg : Nat) (scale : ℚ) : ℚ :=
  scale * (i2c_query_byte bus reg) / 256

/-- `read_analog_word`: `scale * raw / 65536` with a two-byte raw value. -/
def read_analog_word (bus : Bus) (reg : Nat) (scale : ℚ) : ℚ :=
  scale * (i2c_query_word bus reg) / 65536

/-- Python `int()` applied to an exact quotient: truncation toward zero. -/
def pyInt (q : ℚ) : Int :=
  if 0 ≤ q then ⌊q⌋ else ⌈q⌉

/-- The raw integer `write_analog_byte` hands to `i2c_write_byte`:
`int(256 * val / scale)`. -/
def write_analog_byte_raw (val scale : ℚ) : Int :=
  pyInt (256 * val / scale)

/-- The raw integer `write_analog_word` hands to `i2c_write_word`:
`int(65536 * val / scale)`. -/
def write_analog_word_raw (val scale : ℚ) : Int :=
  pyInt (65536 * val / scale)

/-- The scaled value read back for a faithfully stored raw byte value. -/
def read_analog_byte_val (raw : Nat) (scale : ℚ) : ℚ :=
  scale * raw / 256

/-- The scaled value read back for a faithfully stored raw word value. -/
def read_analog_word_val (raw : Nat) (scale : ℚ) : ℚ :=
  scale * raw / 65536

/-- Version string formatting of `firmware_version` / `hardware_version`
(halpi/i2c.py): `"{b0}.{b1}.{b2}"` with a `"-{b3}"` suffix appended only
when the fourth byte is not 0xFF. -/
def version_string (b0 b1 b2 b3 : Nat) : String :=
  let s := toString b0 ++ "." ++ toString b1 ++ "." ++ toString b2
  if b3 ≠ 255 then s ++ "-" ++ toString b3 else s

/-- Python str.startswith, on the code-point sequences of the two strings
(Lean's `String.data` models a Python str exactly). -/
def str_startswith (s p : String) : Bool :=
  s.data.take p.data.length == p.data

/-- The alias selection of `_set_firmware_version` (halpi/i2c.py): the
generic `read_analog` / `write_analog` aliases are rebound to the
word-width variants exactly when the version string starts with "2.". -/
def analog_uses_word (version : String) : Bool :=
  str_startswith version "2."

/-- Device handle state relevant to the analog accessors: the cached
firmware version string and the per-channel scale constants, with the
HALPI2 defaults of `HALPIDevice.__init__`. -/
structure HALPIDevice where
  firmwareVersion : String
  vcap_max : ℚ := 11
  dcin_max : ℚ := 33
  i_max : ℚ := 33 / 10
  temp_max : ℚ := 27315 / 100 + 100

/-- `power_on_threshold` (halpi/i2c.py): reads register 0x13 through
`read_analog_word` with the supercap-max scale. -/
def power_on_threshold (d : HALPIDevice) (bus : Bus) : ℚ :=
  read_analog_word bus 0x13 d.vcap_max

/-- `power_off_threshold`: reads register 0x14 through
`read_analog_word`. -/
def power_off_threshold (d : HALPIDevice) (bus : Bus) : ℚ :=
  read_analog_word bus 0x14 d.vcap_max

/-- `dcin_voltage`: reads register 0x20 through `read_analog_word`. -/
def dcin_voltage (d : HALPIDevice) (bus : Bus) : ℚ :=
  read_analog_word bus 0x20 d.dcin_max

/-- `supercap_voltage`: reads register 0x21 through `read_analog_word`. -/
def supercap_voltage (d : HALPIDevice) (bus : Bus) : ℚ :=
  read_analog_word bus 0x21 d.vcap_max

/-- `input_current`: reads register 0x22 through `read_analog_word`. -/
def input_current (d : HALPIDevice) (bus : Bus) : ℚ :=
  read_analog_word bus 0x22 d.i_max

/-- `temperature`: reads register 0x23 through `read_analog_word`. -/
def temperature (d : HALPIDevice) (bus : Bus) : ℚ :=
  read_analog_word bus 0x23 d.temp_max

/-- `set_power_on_threshold`: the raw integer written to register 0x13
through `write_analog_word`. -/
def set_power_on_threshold (d : HALPIDevice) (v : ℚ) : Int :=
  write_analog_word_raw v d.vcap_max

/-- `set_power_off_threshold`: the raw integer written to register 0x14
through `write_analog_word`. -/
def set_power_off_threshold (d : HALPIDevice) (v : ℚ) : Int :=
  write_analog_word_raw v d.vcap_max

/-! ## Power-supervision state machine (halpi/state_machine.py)

One iteration of the `while True` loop of `run_state_machine` becomes a
step function on the loop state (state string, blackout start time,
retained input voltage).  Each cycle's environment is the outcome of
the voltage read (`none` models a raised transport error) and the value
`time.time()` returns during the cycle. -/

/-- Configuration arguments of `run_state_machine`. -/
structure SMConfig where
  blackout_time_limit : ℚ
  blackout_voltage_limit : ℚ
  dry_run : Bool

/-- The mutable loop state of `run_state_machine`: the state string and
the `blackout_time` / `dcin_voltage` local variables. -/
structure SMState where
  state : String
  blackout_time : ℚ
  dcin_voltage : ℚ
deriving DecidableEq

/-- Environment of one polling cycle: the voltage read outcome (`none` =
the read raised) and the current wall-clock time. -/
structure CycleInput where
  read : Option ℚ
  now : ℚ

/-- Side effects a polling cycle can perform. -/
inductive SMEffect
  | logReadError
  | setWatchdogTimeout (seconds : ℚ)
  | logDryRun
  | requestShutdown
  | runPoweroff
deriving DecidableEq

/-- Is this effect one of the SHUTDOWN-state actions (dry-run log, or
controller shutdown request / poweroff invocation)? -/
def isShutdownEffect : SMEffect → Bool
  | .logDryRun => true
  | .requestShutdown => true
  | .runPoweroff => true
  | _ => false

/-- One iteration of the `while True` loop of `run_state_machine`
(halpi/state_machine.py): read the voltage (retaining the previous value
and logging on failure), then dispatch on the state string. -/
def run_state_machine_step (cfg : SMConfig) (s : SMState) (inp : CycleInput) :
    SMState × List SMEffect :=
  let v := inp.read.getD s.dcin_voltage
  let readEffs : List SMEffect :=
    match inp.read with
    | some _ => []
    | none => [.logReadError]
  if s.state = "START" then
    ({ state := "OK", blackout_time := s.blackout_time, dcin_voltage := v },
      readEffs ++ [.setWatchdogTimeout 10])
  else if s.state = "OK" then
    if v < cfg.blackout_voltage_limit then
      ({ state := "BLACKOUT", blackout_time := inp.now, dcin_voltage := v }, readEffs)
    else
      ({ s with dcin_voltage := v }, readEffs)
  else if s.state = "BLACKOUT" then
    if v > cfg.blackout_voltage_limit then
      ({ s with state := "OK", dcin_voltage := v }, readEffs)
    else if inp.now - s.blackout_time > cfg.blackout_time_limit then
      ({ s with state := "SHUTDOWN", dcin_voltage := v }, readEffs)
    else
      ({ s with dcin_voltage := v }, readEffs)
  else if s.state = "SHUTDOWN" then
    ({ s with state := "DEAD", dcin_voltage := v },
      readEffs ++ (if cfg.dry_run then [.logDryRun] else [.requestShutdown, .runPoweroff]))
  else
    ({ s with dcin_voltage := v }, readEffs)

/-- The initial loop state of `run_state_machine`. -/
def smInit : SMState :=
  { state := "START", blackout_time := 0, dcin_voltage := 0 }

/-- The trace of a run: the state and effects of each polling cycle. -/
def run_state_machine (cfg : SMConfig) : SMState → List CycleInput →
    List (SMState × List SMEffect)
  | _, [] => []
  | s, inp :: rest =>
    let r := run_state_machine_step cfg s inp
    r :: run_state_machine cfg r.1 rest

/-- The number of polling cycles of a run that perform at least one
SHUTDOWN action. -/
def shutdown_cycles (cfg : SMConfig) : SMState → List CycleInput → Nat
  | _, [] => 0
  | s, inp :: rest =>
    let r := run_state_machine_step cfg s inp
    (if r.2.any isShutdownEffect then 1 else 0) + shutdown_cycles cfg r.1 rest

/-! ## Concrete instances used in concrete evaluations -/

/-- A concrete bus reply function: every one-byte register read returns
the byte 100, every two-byte read returns the bytes 0, 100 (so the raw
byte value and the raw word value are both 100). -/
def cBus : Bus := fun _ n => if n = 1 then [100] else if n = 2 then [0, 100] else []

/-- A concrete device handle whose cached firmware version is "1.0.0"
(firmware major version 1), with the default scale constants. -/
def cDev : HALPIDevice := { firmwareVersion := version_string 1 0 0 255 }

/-- A concrete upload environment: every readiness gate immediately
observes UPDATING (status byte 2); the drain loop first observes
DATA_LENGTH_ERROR (status byte 6) and then READY_TO_COMMIT (status byte
4) with one block written. -/
def drainEnvA : UploadEnv :=
  { gatePolls := fun _ => [(0, 2)], drainPolls := [(0, 6, 0), (1, 4, 1)] }

/-- A concrete upload environment: every readiness gate immediately
observes UPDATING; the drain loop immediately observes READY_TO_COMMIT
with one block written. -/
def drainEnvB : UploadEnv :=
  { gatePolls := fun _ => [(0, 2)], drainPolls := [(0, 4, 1)] }

/-! # Theorems -/

/-- C7: for every block number fitting an unsigned 16-bit value and every
data payload of at most 4096 bytes, the frame written to the block-upload
register is exactly the 4-byte big-endian CRC32 followed by the 2-byte
big-endian block number, the 2-byte big-endian block length, and the
data; the CRC32 is computed over exactly block number, block length and
data — not over the CRC field itself. -/
theorem C7_block_framing (block_num : Nat) (data : List Nat)
    (h1 : block_num < 65536) (h2 : data.length ≤ 4096) :
    upload_firmware_block_message block_num data =
      u32be (crc32 (u16be block_num ++ u16be data.length ++ data)) ++
        (u16be block_num ++ u16be data.length ++ data) ∧
    (upload_firmware_block_message block_num data).drop 4 =
      u16be block_num ++ u16be data.length ++ data ∧
    (upload_firmware_block_message block_num data).take 4 =
      u32be (crc32 ((upload_firmware_block_message block_num data).drop 4)) :=
  ⟨rfl, rfl, rfl⟩

/-- C7 witness: the framing theorem instantiated at block number 5 with
ten zero bytes; the concrete frame's CRC32 value 0x2e3b9250 matches the
reference CRC-32 implementation. -/
theorem C7_block_framing_witness :
    upload_firmware_block_message 5 (List.replicate 10 0) =
      [46, 59, 146, 80, 0, 5, 0, 10, 0, 0, 0, 0, 0, 0, 0, 0, 0, 0] ∧
    (upload_firmware_block_message 5 (List.replicate 10 0)).take 4 =
      u32be (crc32 ((upload_firmware_block_message 5 (List.replicate 10 0)).drop 4)) :=
  ⟨by decide, (C7_block_framing 5 (List.replicate 10 0) (by decide) (by decide)).2.2⟩

/-- C10 (amended): the 4096-byte block-size check and the per-value 0-255
range check of multi-byte raw writes both raise a validation error before
any bus transaction; the single-byte raw write path (i2c_write_byte, used
by set_led_brightness) performs no range validation in this layer and
hands the requested value to the transport unchanged. -/
theorem C10_validation :
    (∀ block_num data, FLASH_BLOCK_SIZE < data.length →
      upload_firmware_block block_num data = ([], .error "Block size exceeds maximum")) ∧
    (∀ reg vals, (∃ v ∈ vals, v < 0 ∨ 256 ≤ v) →
      i2c_write_bytes reg vals = ([], .error "All values must be in the range 0-255")) ∧
    (∀ reg vals, (∀ v ∈ vals, 0 ≤ v ∧ v < 256) →
      i2c_write_bytes reg vals = ([.regBytes reg vals], .ok ())) ∧
    (∀ b, set_led_brightness b = ([.regBytes 0x17 [b]], .ok ())) := by
  refine ⟨?_, ?_, ?_, fun b => rfl⟩
  · intro block_num data hd
    simp [upload_firmware_block, hd]
  · intro reg vals hv
    rw [i2c_write_bytes, if_neg]
    simp only [List.all_eq_true, decide_eq_true_eq]
    rintro hall
    obtain ⟨v, hmem, hout⟩ := hv
    rcases hout with hlt | hge
    · exact absurd (hall v hmem).1 (by omega)
    · exact absurd (hall v hmem).2 (by omega)
  · intro reg vals hv
    rw [i2c_write_bytes, if_pos]
    simp only [List.all_eq_true, decide_eq_true_eq]
    exact hv

/-- C10 counterexample: requesting a raw single-byte write of the value
300 (through set_led_brightness) raises no validation error; the
out-of-range value is transmitted to the bus unchanged. -/
theorem C10_counterexample :
    set_led_brightness 300 = ([.regBytes 0x17 [300]], .ok ()) ∧ (256 : Int) ≤ 300 :=
  ⟨rfl, by norm_num⟩

/-- C10 witness: the validation theorem instantiated at an oversized
block, an out-of-range multi-byte write, and an in-range multi-byte
write. -/
theorem C10_validation_witness :
    upload_firmware_block 0 (List.replicate 4097 0) =
      ([], .error "Block size exceeds maximum") ∧
    i2c_write_bytes 0x40 [300] = ([], .error "All values must be in the range 0-255") ∧
    i2c_write_bytes 0x40 [5] = ([.regBytes 0x40 [5]], .ok ()) :=
  ⟨C10_validation.1 0 (List.replicate 4097 0) (by rw [List.length_replicate]; decide),
   C10_validation.2.1 0x40 [300] ⟨300, by simp, by norm_num⟩,
   C10_validation.2.2.1 0x40 [5] (by intro v hv; simp at hv; omega)⟩

/-- C1 (amended): the typed analog accessors do not dispatch on the
firmware version: for every device handle and every bus, power-on/off
threshold, input voltage, supercap voltage, input current and temperature
all use the 16-bit word encoding (denominator 65536), and the threshold
writers all use the word-width inverse mapping; the firmware-version
check (version string starting with "2.") only selects the generic
read_analog/write_analog aliases, which these accessors never consult. -/
theorem C1_accessors_always_word (d : HALPIDevice) (bus : Bus) (v : ℚ) :
    power_on_threshold d bus = read_analog_word bus 0x13 d.vcap_max ∧
    power_off_threshold d bus = read_analog_word bus 0x14 d.vcap_max ∧
    dcin_voltage d bus = read_analog_word bus 0x20 d.dcin_max ∧
    supercap_voltage d bus = read_analog_word bus 0x21 d.vcap_max ∧
    input_current d bus = read_analog_word bus 0x22 d.i_max ∧
    temperature d bus = read_analog_word bus 0x23 d.temp_max ∧
    set_power_on_threshold d v = write_analog_word_raw v d.vcap_max ∧
    set_power_off_threshold d v = write_analog_word_raw v d.vcap_max :=
  ⟨rfl, rfl, rfl, rfl, rfl, rfl, rfl, rfl⟩

/-- C1 counterexample: the device handle cDev has firmware version
"1.0.0" (major version 1 < 2), so the alias switch selects the byte
encoding; yet its power-on threshold accessor returns the word-encoded
value 11 * 100 / 65536, which differs from the byte-encoded value
11 * 100 / 256 the claim requires on the bus cBus. -/
theorem C1_counterexample :
    analog_uses_word cDev.firmwareVersion = false ∧
    power_on_threshold cDev cBus = 11 * 100 / 65536 ∧
    read_analog_byte cBus 0x13 cDev.vcap_max = 11 * 100 / 256 ∧
    power_on_threshold cDev cBus ≠ read_analog_byte cBus 0x13 cDev.vcap_max := by
  refine ⟨by decide, ?_, ?_, ?_⟩
  · norm_num [power_on_threshold, read_analog_word, i2c_query_word, cBus, cDev]
  · norm_num [read_analog_byte, i2c_query_byte, cBus, cDev]
  · norm_num [power_on_threshold, read_analog_word, read_analog_byte, i2c_query_word,
      i2c_query_byte, cBus, cDev]

/-- C6 (amended): in state OK the machine moves to BLACKOUT, recording
the cycle's time as the blackout start, exactly when the observed voltage
is strictly below the blackout voltage limit; in state BLACKOUT it
returns to OK exactly when the voltage is strictly above the limit (a
voltage exactly equal to the limit does not resume OK), and otherwise
moves to SHUTDOWN exactly when the elapsed time since the blackout start
strictly exceeds the blackout time limit. -/
theorem C6_ok_blackout_transitions (cfg : SMConfig) (s : SMState) (inp : CycleInput)
    (v : ℚ) (hv : inp.read = some v) :
    (s.state = "OK" →
      (run_state_machine_step cfg s inp).1.state =
        (if v < cfg.blackout_voltage_limit then "BLACKOUT" else "OK") ∧
      (v < cfg.blackout_voltage_limit →
        (run_state_machine_step cfg s inp).1.blackout_time = inp.now)) ∧
    (s.state = "BLACKOUT" →
      (run_state_machine_step cfg s inp).1.state =
        (if cfg.blackout_voltage_limit < v then "OK"
         else if cfg.blackout_time_limit < inp.now - s.blackout_time then "SHUTDOWN"
         else "BLACKOUT")) := by
  constructor
  · intro h
    constructor
    · simp only [run_state_machine_step, hv, Option.getD_some, h]
      split_ifs <;> simp_all
    · intro hlt
      simp only [run_state_machine_step, hv, Option.getD_some, h]
      split_ifs <;> simp_all
  · intro h
    simp only [run_state_machine_step, hv, Option.getD_some, h]
    split_ifs <;> simp_all [gt_iff_lt]

/-- C6 counterexample: with blackout voltage limit 9, state BLACKOUT, and
an observed voltage exactly equal to the limit, the machine stays in
BLACKOUT instead of returning to OK as the claim's
greater-than-or-equal-to resume condition requires. -/
theorem C6_counterexample :
    (run_state_machine_step ⟨60, 9, false⟩ ⟨"BLACKOUT", 0, 0⟩ ⟨some 9, 1⟩).1.state =
      "BLACKOUT" ∧ (9 : ℚ) ≥ 9 := by
  refine ⟨?_, le_refl 9⟩
  norm_num [run_state_machine_step]
  decide

/-- C6 witness: the transition theorem instantiated at state OK with
limit 9 and observed voltage 8 at time 5: the machine enters BLACKOUT and
records time 5 as the blackout start. -/
theorem C6_witness :
    (run_state_machine_step ⟨60, 9, false⟩ ⟨"OK", 0, 0⟩ ⟨some 8, 5⟩).1.state = "BLACKOUT" ∧
    (run_state_machine_step ⟨60, 9, false⟩ ⟨"OK", 0, 0⟩ ⟨some 8, 5⟩).1.blackout_time = 5 := by
  have h := (C6_ok_blackout_transitions ⟨60, 9, false⟩ ⟨"OK", 0, 0⟩ ⟨some 8, 5⟩ 8 rfl).1 rfl
  refine ⟨?_, h.2 (by norm_num)⟩
  rw [h.1]
  norm_num

/-- Length of a supervision run: one trace entry per polling cycle,
whatever the read outcomes are. -/
theorem run_state_machine_length (cfg : SMConfig) :
    ∀ (inputs : List CycleInput) (s : SMState),
      (run_state_machine cfg s inputs).length = inputs.length := by
  intro inputs
  induction inputs with
  | nil => intro s; rfl
  | cons inp rest ih => intro s; simp [run_state_machine, ih]

/-- C9: a polling cycle whose voltage read raises logs the error, keeps
the retained voltage value unchanged, makes the same state decision as a
cycle that read the retained value, and the loop continues: a run
processes every cycle regardless of read failures. -/
theorem C9_read_failure_retains_voltage (cfg : SMConfig) (s : SMState) (inp : CycleInput)
    (h : inp.read = none) :
    (run_state_machine_step cfg s inp).1.dcin_voltage = s.dcin_voltage ∧
    SMEffect.logReadError ∈ (run_state_machine_step cfg s inp).2 ∧
    (run_state_machine_step cfg s inp).1 =
      (run_state_machine_step cfg s { read := some s.dcin_voltage, now := inp.now }).1 ∧
    (run_state_machine_step cfg s inp).2 =
      SMEffect.logReadError ::
        (run_state_machine_step cfg s { read := some s.dcin_voltage, now := inp.now }).2 ∧
    ∀ inputs, (run_state_machine cfg s inputs).length = inputs.length := by
  refine ⟨?_, ?_, ?_, ?_, fun inputs => run_state_machine_length cfg inputs s⟩ <;>
    simp only [run_state_machine_step, h, Option.getD_none, Option.getD_some] <;>
    split_ifs <;> simp

/-- C9 witness: the theorem instantiated at state OK with retained
voltage 7 and a failing read: the voltage stays 7 and the error is
logged. -/
theorem C9_witness :
    (run_state_machine_step ⟨60, 9, false⟩ ⟨"OK", 0, 7⟩ ⟨none, 3⟩).1.dcin_voltage = 7 ∧
    SMEffect.logReadError ∈ (run_state_machine_step ⟨60, 9, false⟩ ⟨"OK", 0, 7⟩ ⟨none, 3⟩).2 :=
  ⟨(C9_read_failure_retains_voltage ⟨60, 9, false⟩ ⟨"OK", 0, 7⟩ ⟨none, 3⟩ rfl).1,
   (C9_read_failure_retains_voltage ⟨60, 9, false⟩ ⟨"OK", 0, 7⟩ ⟨none, 3⟩ rfl).2.1⟩

/-- Quantization bound of the analog write/read pair: for a register
range N, writing a value v of [0, scale) stores a raw integer of [0, N)
and reading the faithfully stored raw value back yields a result within
one quantization step (scale / N) below v. -/
theorem analog_roundtrip (N scale v : ℚ) (hN : 0 < N) (hs : 0 < scale)
    (h0 : 0 ≤ v) (h1 : v < scale) :
    0 ≤ pyInt (N * v / scale) ∧ ((pyInt (N * v / scale) : ℚ)) < N ∧
    scale * ((pyInt (N * v / scale)).toNat : ℚ) / N ≤ v ∧
    v - scale / N < scale * ((pyInt (N * v / scale)).toNat : ℚ) / N := by
  have hs0 : scale ≠ 0 := ne_of_gt hs
  have hN0 : (N : ℚ) ≠ 0 := ne_of_gt hN
  set q : ℚ := N * v / scale with hq
  have hq0 : 0 ≤ q := by positivity
  have hpy : pyInt q = ⌊q⌋ := if_pos hq0
  have hfl0 : 0 ≤ ⌊q⌋ := Int.floor_nonneg.mpr hq0
  have hcast : (((pyInt q).toNat : ℕ) : ℚ) = ((⌊q⌋ : ℤ) : ℚ) := by
    rw [hpy]
    exact_mod_cast congrArg (fun z : ℤ => (z : ℚ)) (Int.toNat_of_nonneg hfl0)
  have hfle : ((⌊q⌋ : ℤ) : ℚ) ≤ q := Int.floor_le q
  have hflg : q - 1 < ((⌊q⌋ : ℤ) : ℚ) := Int.sub_one_lt_floor q
  have hqN : q < N := by
    rw [hq, div_lt_iff₀ hs]
    exact (mul_lt_mul_left hN).mpr h1
  refine ⟨?_, ?_, ?_, ?_⟩
  · rw [hpy]; exact hfl0
  · rw [hpy]
    exact lt_of_le_of_lt hfle hqN
  · rw [hcast, div_le_iff₀ hN]
    calc scale * ((⌊q⌋ : ℤ) : ℚ) ≤ scale * q := by
          exact mul_le_mul_of_nonneg_left hfle hs.le
      _ = v * N := by rw [hq]; field_simp; ring
  · rw [hcast, lt_div_iff₀ hN]
    have h2 : scale * (q - 1) < scale * ((⌊q⌋ : ℤ) : ℚ) :=
      (mul_lt_mul_left hs).mpr hflg
    have h3 : scale * (q - 1) = (v - scale / N) * N := by
      rw [hq]; field_simp; ring
    rw [← h3]
    exact h2

/-- C8 (amended): for every scale S > 0 and every value v with
0 ≤ v < S, the raw integer written by write_analog is nonnegative and
fits the register width (strictly below 65536 for the word encoding and
below 256 for the byte encoding), and reading back the faithfully stored
raw value yields a result within one quantization step (S/65536 resp.
S/256) below v.  At v = S the raw integer equals the full range value
and no longer fits the width (see the counterexample). -/
theorem C8_roundtrip (scale v : ℚ) (hs : 0 < scale) (h0 : 0 ≤ v) (h1 : v < scale) :
    (0 ≤ write_analog_word_raw v scale ∧ write_analog_word_raw v scale < 65536 ∧
      read_analog_word_val (write_analog_word_raw v scale).toNat scale ≤ v ∧
      v - scale / 65536 < read_analog_word_val (write_analog_word_raw v scale).toNat scale) ∧
    (0 ≤ write_analog_byte_raw v scale ∧ write_analog_byte_raw v scale < 256 ∧
      read_analog_byte_val (write_analog_byte_raw v scale).toNat scale ≤ v ∧
      v - scale / 256 < read_analog_byte_val (write_analog_byte_raw v scale).toNat scale) := by
  have hw := analog_roundtrip 65536 scale v (by norm_num) hs h0 h1
  have hb := analog_roundtrip 256 scale v (by norm_num) hs h0 h1
  refine ⟨⟨hw.1, ?_, hw.2.2.1, hw.2.2.2⟩, ⟨hb.1, ?_, hb.2.2.1, hb.2.2.2⟩⟩
  · exact_mod_cast hw.2.1
  · exact_mod_cast hb.2.1

/-- C8 counterexample: at v = scale — included in the claim's range
0 ≤ v ≤ S — the raw integer written by the word encoding is 65536 and by
the byte encoding 256; neither fits its register width. -/
theorem C8_counterexample :
    write_analog_word_raw 11 11 = 65536 ∧ ¬ write_analog_word_raw 11 11 < 65536 ∧
    write_analog_byte_raw 11 11 = 256 ∧ ¬ write_analog_byte_raw 11 11 < 256 := by
  norm_num [write_analog_word_raw, write_analog_byte_raw, pyInt]

/-- C8 witness: the round-trip theorem instantiated at v = 1, scale = 2:
the word raw value fits and the read-back value is within 2/65536 of 1. -/
theorem C8_witness :
    0 ≤ write_analog_word_raw 1 2 ∧ write_analog_word_raw 1 2 < 65536 ∧
    read_analog_word_val (write_analog_word_raw 1 2).toNat 2 ≤ 1 ∧
    (1 : ℚ) - 2 / 65536 < read_analog_word_val (write_analog_word_raw 1 2).toNat 2 :=
  (C8_roundtrip 2 1 (by norm_num) (by norm_num) (by norm_num)).1

/-- A cycle starting in DEAD keeps the state DEAD, keeps the blackout
timestamp, and performs no shutdown action. -/
theorem step_dead (cfg : SMConfig) (s : SMState) (inp : CycleInput)
    (h : s.state = "DEAD") :
    (run_state_machine_step cfg s inp).1.state = "DEAD" ∧
    (run_state_machine_step cfg s inp).1.blackout_time = s.blackout_time ∧
    ∀ e ∈ (run_state_machine_step cfg s inp).2, isShutdownEffect e = false := by
  rcases hr : inp.read with _ | v <;>
    simp [run_state_machine_step, h, hr, isShutdownEffect]

/-- A cycle starting outside SHUTDOWN performs no shutdown action. -/
theorem step_not_shutdown_no_effect (cfg : SMConfig) (s : SMState) (inp : CycleInput)
    (h : s.state ≠ "SHUTDOWN") :
    (run_state_machine_step cfg s inp).2.any isShutdownEffect = false := by
  rcases hr : inp.read with _ | v <;>
    simp only [run_state_machine_step, hr, Option.getD_none, Option.getD_some] <;>
    split_ifs <;> simp_all [isShutdownEffect]

/-- A cycle starting in SHUTDOWN performs a shutdown action and moves to
DEAD. -/
theorem step_shutdown (cfg : SMConfig) (s : SMState) (inp : CycleInput)
    (h : s.state = "SHUTDOWN") :
    (run_state_machine_step cfg s inp).1.state = "DEAD" ∧
    (run_state_machine_step cfg s inp).2.any isShutdownEffect = true := by
  rcases hr : inp.read with _ | v <;> rcases hd : cfg.dry_run <;>
    simp [run_state_machine_step, h, hr, hd, isShutdownEffect]

/-- A run starting in DEAD performs no shutdown action in any cycle. -/
theorem shutdown_cycles_dead (cfg : SMConfig) :
    ∀ (inputs : List CycleInput) (s : SMState), s.state = "DEAD" →
      shutdown_cycles cfg s inputs = 0 := by
  intro inputs
  induction inputs with
  | nil => intro s _; rfl
  | cons inp rest ih =>
    intro s h
    have hd := step_dead cfg s inp h
    have hno := step_not_shutdown_no_effect cfg s inp (by rw [h]; decide)
    simp [shutdown_cycles, hno, ih _ hd.1]

/-- From any starting state, at most one cycle of a run performs a
shutdown action. -/
theorem shutdown_cycles_le_one (cfg : SMConfig) :
    ∀ (inputs : List CycleInput) (s : SMState), shutdown_cycles cfg s inputs ≤ 1 := by
  intro inputs
  induction inputs with
  | nil => intro s; simp [shutdown_cycles]
  | cons inp rest ih =>
    intro s
    by_cases h : s.state = "SHUTDOWN"
    · have hs := step_shutdown cfg s inp h
      simp [shutdown_cycles, hs.2, shutdown_cycles_dead cfg rest _ hs.1]
    · have hno := step_not_shutdown_no_effect cfg s inp h
      simp only [shutdown_cycles, hno, Bool.false_eq_true, if_false, Nat.zero_add]
      exact ih _

/-- C2: the SHUTDOWN actions (controller shutdown request plus poweroff
invocation, or the dry-run log) are performed in at most one polling
cycle of any run, from any starting state and whatever the observed
voltages; and DEAD is absorbing: a cycle starting in DEAD keeps the
machine state DEAD, keeps the blackout timestamp, and performs no
shutdown side effect. -/
theorem C2_shutdown_once_dead_absorbing (cfg : SMConfig) :
    (∀ s inp, s.state = "DEAD" →
      (run_state_machine_step cfg s inp).1.state = "DEAD" ∧
      (run_state_machine_step cfg s inp).1.blackout_time = s.blackout_time ∧
      ∀ e ∈ (run_state_machine_step cfg s inp).2, isShutdownEffect e = false) ∧
    ∀ s inputs, shutdown_cycles cfg s inputs ≤ 1 :=
  ⟨fun s inp h => step_dead cfg s inp h,
   fun s inputs => shutdown_cycles_le_one cfg inputs s⟩

/-- C2 witness: the theorem instantiated at a DEAD state (the state stays
DEAD) and at a run of two cycles from SHUTDOWN (the count of
shutdown-acting cycles is at most one). -/
theorem C2_witness :
    (run_state_machine_step ⟨60, 9, false⟩ ⟨"DEAD", 0, 0⟩ ⟨some 0, 0⟩).1.state = "DEAD" ∧
    shutdown_cycles ⟨60, 9, false⟩ ⟨"SHUTDOWN", 0, 0⟩ [⟨some 0, 0⟩, ⟨some 0, 1⟩] ≤ 1 :=
  ⟨((C2_shutdown_once_dead_absorbing ⟨60, 9, false⟩).1 ⟨"DEAD", 0, 0⟩ ⟨some 0, 0⟩ rfl).1,
   (C2_shutdown_once_dead_absorbing ⟨60, 9, false⟩).2 ⟨"SHUTDOWN", 0, 0⟩ _⟩

/-- The three gate-poll classes are pairwise exclusive. -/
theorem gate_poll_mutex (timeout : ℚ) (p : ℚ × Nat) :
    ¬(gate_poll_continue timeout p ∧ gate_poll_proceed timeout p) ∧
    ¬(gate_poll_continue timeout p ∧ gate_poll_fail timeout p) ∧
    ¬(gate_poll_proceed timeout p ∧ gate_poll_fail timeout p) := by
  rcases hst : get_dfu_status p.2 <;> by_cases ht : p.1 < timeout <;>
    simp [gate_poll_continue, gate_poll_proceed, gate_poll_fail, hst, ht]

/-- Every gate poll falls into one of the three classes. -/
theorem gate_poll_cases (timeout : ℚ) (p : ℚ × Nat) :
    gate_poll_continue timeout p ∨ gate_poll_proceed timeout p ∨
      gate_poll_fail timeout p := by
  by_cases ht : p.1 < timeout
  · rcases hst : get_dfu_status p.2 <;>
      simp [gate_poll_continue, gate_poll_proceed, gate_poll_fail, hst, ht]
  · exact Or.inr (Or.inr (Or.inl ht))

/-- A continue-class poll leaves the gate loop polling. -/
theorem wait_cons_continue (timeout : ℚ) (p : ℚ × Nat) (rest : List (ℚ × Nat))
    (h : gate_poll_continue timeout p) :
    wait_for_dfu_ready timeout (p :: rest) = wait_for_dfu_ready timeout rest := by
  obtain ⟨t, b⟩ := p
  obtain ⟨ht, hst⟩ := h
  rcases hst with h1 | h1 | h1 <;> simp [wait_for_dfu_ready, ht, h1]

/-- A proceed-class poll makes the gate loop return True. -/
theorem wait_cons_proceed (timeout : ℚ) (p : ℚ × Nat) (rest : List (ℚ × Nat))
    (h : gate_poll_proceed timeout p) :
    wait_for_dfu_ready timeout (p :: rest) = some true := by
  obtain ⟨t, b⟩ := p
  obtain ⟨ht, hst⟩ := h
  rcases hst with h1 | h1 <;> simp [wait_for_dfu_ready, ht, h1]

/-- A fail-class poll makes the gate loop return False. -/
theorem wait_cons_fail (timeout : ℚ) (p : ℚ × Nat) (rest : List (ℚ × Nat))
    (h : gate_poll_fail timeout p) :
    wait_for_dfu_ready timeout (p :: rest) = some false := by
  obtain ⟨t, b⟩ := p
  rcases h with hnt | ⟨ht, h1⟩
  · simp [wait_for_dfu_ready, hnt]
  · rcases h1 with h1 | h1 | h1 | h1 <;> simp [wait_for_dfu_ready, ht, h1]

/-- The gate loop returns True exactly when some proceed-class poll is
reached after only continue-class polls. -/
theorem wait_true_iff (timeout : ℚ) :
    ∀ polls, wait_for_dfu_ready timeout polls = some true ↔
      ∃ l₁ p l₂, polls = l₁ ++ p :: l₂ ∧
        (∀ q ∈ l₁, gate_poll_continue timeout q) ∧ gate_poll_proceed timeout p := by
  intro polls
  induction polls with
  | nil =>
    simp only [wait_for_dfu_ready]
    constructor
    · intro h; cases h
    · rintro ⟨l₁, p, l₂, h, -, -⟩
      exact absurd h.symm (List.append_ne_nil_of_right_ne_nil l₁ (by simp))
  | cons hd rest ih =>
    rcases gate_poll_cases timeout hd with hc | hp | hf
    · rw [wait_cons_continue timeout hd rest hc, ih]
      constructor
      · rintro ⟨l₁, p, l₂, heq, hcont, hproc⟩
        refine ⟨hd :: l₁, p, l₂, by rw [heq]; rfl, ?_, hproc⟩
        intro q hq
        rcases List.mem_cons.mp hq with rfl | hq2
        · exact hc
        · exact hcont q hq2
      · rintro ⟨l₁, p, l₂, heq, hcont, hproc⟩
        rcases l₁ with _ | ⟨q, l₁⟩
        · simp only [List.nil_append, List.cons.injEq] at heq
          exact absurd ⟨hc, heq.1 ▸ hproc⟩ (gate_poll_mutex timeout hd).1
        · simp only [List.cons_append, List.cons.injEq] at heq
          exact ⟨l₁, p, l₂, heq.2, fun r hr => hcont r (List.mem_cons_of_mem q hr), hproc⟩
    · rw [wait_cons_proceed timeout hd rest hp]
      exact ⟨fun _ => ⟨[], hd, rest, rfl, by simp, hp⟩, fun _ => rfl⟩
    · rw [wait_cons_fail timeout hd rest hf]
      constructor
      · intro h; cases h
      · rintro ⟨l₁, p, l₂, heq, hcont, hproc⟩
        rcases l₁ with _ | ⟨q, l₁⟩
        · simp only [List.nil_append, List.cons.injEq] at heq
          exact absurd ⟨heq.1 ▸ hproc, hf⟩ (gate_poll_mutex timeout hd).2.2
        · simp only [List.cons_append, List.cons.injEq] at heq
          exact absurd ⟨heq.1 ▸ hcont q (by simp), hf⟩ (gate_poll_mutex timeout hd).2.1

/-- The gate loop returns False exactly when some fail-class poll (error
status, IDLE, or elapsed window) is reached after only continue-class
polls. -/
theorem wait_false_iff (timeout : ℚ) :
    ∀ polls, wait_for_dfu_ready timeout polls = some false ↔
      ∃ l₁ p l₂, polls = l₁ ++ p :: l₂ ∧
        (∀ q ∈ l₁, gate_poll_continue timeout q) ∧ gate_poll_fail timeout p := by
  intro polls
  induction polls with
  | nil =>
    simp only [wait_for_dfu_ready]
    constructor
    · intro h; cases h
    · rintro ⟨l₁, p, l₂, h, -, -⟩
      exact absurd h.symm (List.append_ne_nil_of_right_ne_nil l₁ (by simp))
  | cons hd rest ih =>
    rcases gate_poll_cases timeout hd with hc | hp | hf
    · rw [wait_cons_continue timeout hd rest hc, ih]
      constructor
      · rintro ⟨l₁, p, l₂, heq, hcont, hfail⟩
        refine ⟨hd :: l₁, p, l₂, by rw [heq]; rfl, ?_, hfail⟩
        intro q hq
        rcases List.mem_cons.mp hq with rfl | hq2
        · exact hc
        · exact hcont q hq2
      · rintro ⟨l₁, p, l₂, heq, hcont, hfail⟩
        rcases l₁ with _ | ⟨q, l₁⟩
        · simp only [List.nil_append, List.cons.injEq] at heq
          exact absurd ⟨hc, heq.1 ▸ hfail⟩ (gate_poll_mutex timeout hd).2.1
        · simp only [List.cons_append, List.cons.injEq] at heq
          exact ⟨l₁, p, l₂, heq.2, fun r hr => hcont r (List.mem_cons_of_mem q hr), hfail⟩
    · rw [wait_cons_proceed timeout hd rest hp]
      constructor
      · intro h; cases h
      · rintro ⟨l₁, p, l₂, heq, hcont, hfail⟩
        rcases l₁ with _ | ⟨q, l₁⟩
        · simp only [List.nil_append, List.cons.injEq] at heq
          exact absurd ⟨hp, heq.1 ▸ hfail⟩ (gate_poll_mutex timeout hd).2.2
        · simp only [List.cons_append, List.cons.injEq] at heq
          exact absurd ⟨heq.1 ▸ hcont q (by simp), hp⟩ (gate_poll_mutex timeout hd).1
    · rw [wait_cons_fail timeout hd rest hf]
      exact ⟨fun _ => ⟨[], hd, rest, rfl, by simp, hf⟩, fun _ => rfl⟩

/-- C4 (amended): any status byte outside the enum range decodes to
PROTOCOL_ERROR; the readiness gate proceeds exactly when a poll inside
the window decodes to UPDATING or READY_TO_COMMIT after only
continue-class polls, and reports failure exactly when a poll reaches the
elapsed window or decodes to CRC_ERROR, PROTOCOL_ERROR, WRITE_ERROR, or
IDLE after only continue-class polls; DATA_LENGTH_ERROR is not in the
failure set: a DATA_LENGTH_ERROR poll inside the window is a
continue-class poll, so the loop silently keeps polling past it. -/
theorem C4_gate_characterization :
    (∀ b, 8 < b → get_dfu_status b = .PROTOCOL_ERROR) ∧
    (∀ (timeout : ℚ) polls, wait_for_dfu_ready timeout polls = some true ↔
      ∃ l₁ p l₂, polls = l₁ ++ p :: l₂ ∧
        (∀ q ∈ l₁, gate_poll_continue timeout q) ∧ gate_poll_proceed timeout p) ∧
    (∀ (timeout : ℚ) polls, wait_for_dfu_ready timeout polls = some false ↔
      ∃ l₁ p l₂, polls = l₁ ++ p :: l₂ ∧
        (∀ q ∈ l₁, gate_poll_continue timeout q) ∧ gate_poll_fail timeout p) ∧
    (∀ (timeout : ℚ) (p : ℚ × Nat), get_dfu_status p.2 = .DATA_LENGTH_ERROR →
      p.1 < timeout → gate_poll_continue timeout p ∧ ¬ gate_poll_fail timeout p) := by
  refine ⟨?_, wait_true_iff, wait_false_iff, ?_⟩
  · intro b hb
    unfold get_dfu_status
    split_ifs <;> first | rfl | omega
  · intro timeout p hst ht
    have hc : gate_poll_continue timeout p := ⟨ht, Or.inr (Or.inr hst)⟩
    exact ⟨hc, fun hf => (gate_poll_mutex timeout p).2.1 ⟨hc, hf⟩⟩

/-- C4 counterexample: the gate loop observes DATA_LENGTH_ERROR (status
byte 6) inside the window and then UPDATING, and returns ready: it
silently continues past the DATA_LENGTH_ERROR error state instead of
reporting failure as the claim requires. -/
theorem C4_counterexample :
    get_dfu_status 6 = DFUState.DATA_LENGTH_ERROR ∧
    wait_for_dfu_ready 30 [((0 : ℚ), 6), (1, 2)] = some true :=
  ⟨by decide, by decide⟩

/-- C4 witness: the characterization applied at the unrecognized status
byte 100 and at a single UPDATING poll. -/
theorem C4_witness :
    get_dfu_status 100 = DFUState.PROTOCOL_ERROR ∧
    wait_for_dfu_ready 30 [((0 : ℚ), 2)] = some true :=
  ⟨C4_gate_characterization.1 100 (by norm_num),
   (C4_gate_characterization.2.1 30 [(0, 2)]).mpr
     ⟨[], (0, 2), [], rfl, by simp, by decide, Or.inl (by decide)⟩⟩

/-- The drain-poll classes (continue, commit, error, window elapsed) are
pairwise exclusive. -/
theorem drain_poll_mutex (total : Nat) (p : ℚ × Nat × Nat) :
    ¬(drain_poll_continue total p ∧ drain_poll_commit total p) ∧
    ¬(drain_poll_continue total p ∧ drain_poll_error total p) ∧
    ¬(drain_poll_commit total p ∧ drain_poll_error total p) ∧
    ¬(drain_poll_continue total p ∧ ¬ p.1 < 5) ∧
    ¬(drain_poll_commit total p ∧ ¬ p.1 < 5) ∧
    ¬(drain_poll_error total p ∧ ¬ p.1 < 5) := by
  refine ⟨?_, ?_, ?_, ?_, ?_, ?_⟩ <;> rintro ⟨h1, h2⟩
  · exact h1.2.1 ⟨h2.2.1, h2.2.2⟩
  · exact h1.2.2 h2.2
  · rcases h2.2 with h | h | h <;> rw [h1.2.1] at h <;> cases h
  · exact h2 h1.1
  · exact h2 h1.1
  · exact h2 h1.1

/-- Every drain observation falls into one of the four classes. -/
theorem drain_poll_cases (total : Nat) (p : ℚ × Nat × Nat) :
    ¬ p.1 < 5 ∨ drain_poll_commit total p ∨ drain_poll_error total p ∨
      drain_poll_continue total p := by
  by_cases ht : p.1 < 5
  · by_cases hcm : get_dfu_status p.2.1 = .READY_TO_COMMIT ∧ p.2.2 = total
    · exact Or.inr (Or.inl ⟨ht, hcm.1, hcm.2⟩)
    · by_cases herr : get_dfu_status p.2.1 = .CRC_ERROR ∨
        get_dfu_status p.2.1 = .PROTOCOL_ERROR ∨ get_dfu_status p.2.1 = .WRITE_ERROR
      · exact Or.inr (Or.inr (Or.inl ⟨ht, herr⟩))
      · exact Or.inr (Or.inr (Or.inr ⟨ht, hcm, herr⟩))
  · exact Or.inl ht

/-- A continue-class observation leaves the drain loop polling. -/
theorem drain_cons_continue (total : Nat) (p : ℚ × Nat × Nat)
    (rest : List (ℚ × Nat × Nat)) (h : drain_poll_continue total p) :
    drain_loop total (p :: rest) = drain_loop total rest := by
  obtain ⟨t, sb, bw⟩ := p
  simp only [drain_loop]
  rw [if_pos h.1, if_neg h.2.1, if_neg h.2.2]

/-- A commit-class observation breaks the drain loop toward commit. -/
theorem drain_cons_commit (total : Nat) (p : ℚ × Nat × Nat)
    (rest : List (ℚ × Nat × Nat)) (h : drain_poll_commit total p) :
    drain_loop total (p :: rest) = .breakCommit := by
  obtain ⟨t, sb, bw⟩ := p
  simp only [drain_loop]
  rw [if_pos h.1, if_pos ⟨h.2.1, h.2.2⟩]

/-- An error-class observation aborts the drain loop. -/
theorem drain_cons_error (total : Nat) (p : ℚ × Nat × Nat)
    (rest : List (ℚ × Nat × Nat)) (h : drain_poll_error total p) :
    drain_loop total (p :: rest) = .abortError := by
  obtain ⟨t, sb, bw⟩ := p
  obtain ⟨ht, hst⟩ := h
  rcases hst with h1 | h1 | h1 <;> simp [drain_loop, ht, h1]

/-- An observation past the 5-second window timeout-aborts the drain
loop. -/
theorem drain_cons_timeout (total : Nat) (p : ℚ × Nat × Nat)
    (rest : List (ℚ × Nat × Nat)) (h : ¬ p.1 < 5) :
    drain_loop total (p :: rest) = .abortTimeout := by
  obtain ⟨t, sb, bw⟩ := p
  simp only [drain_loop]
  rw [if_neg h]

/-- The drain loop breaks to commit exactly when a commit-class
observation (READY_TO_COMMIT with matching block count, inside the
window) is reached after only continue-class observations. -/
theorem drain_commit_iff (total : Nat) :
    ∀ polls, drain_loop total polls = .breakCommit ↔
      ∃ l₁ p l₂, polls = l₁ ++ p :: l₂ ∧
        (∀ q ∈ l₁, drain_poll_continue total q) ∧ drain_poll_commit total p := by
  intro polls
  induction polls with
  | nil =>
    simp only [drain_loop]
    constructor
    · intro h; cases h
    · rintro ⟨l₁, p, l₂, h, -, -⟩
      exact absurd h.symm (List.append_ne_nil_of_right_ne_nil l₁ (by simp))
  | cons hd rest ih =>
    rcases drain_poll_cases total hd with ht | hcm | herr | hc
    · rw [drain_cons_timeout total hd rest ht]
      constructor
      · intro h; cases h
      · rintro ⟨l₁, p, l₂, heq, hcont, hcm⟩
        rcases l₁ with _ | ⟨q, l₁⟩
        · simp only [List.nil_append, List.cons.injEq] at heq
          exact absurd ⟨heq.1 ▸ hcm, ht⟩ (drain_poll_mutex total hd).2.2.2.2.1
        · simp only [List.cons_append, List.cons.injEq] at heq
          exact absurd ⟨heq.1 ▸ hcont q (by simp), ht⟩ (drain_poll_mutex total hd).2.2.2.1
    · rw [drain_cons_commit total hd rest hcm]
      exact ⟨fun _ => ⟨[], hd, rest, rfl, by simp, hcm⟩, fun _ => rfl⟩
    · rw [drain_cons_error total hd rest herr]
      constructor
      · intro h; cases h
      · rintro ⟨l₁, p, l₂, heq, hcont, hcm⟩
        rcases l₁ with _ | ⟨q, l₁⟩
        · simp only [List.nil_append, List.cons.injEq] at heq
          exact absurd ⟨heq.1 ▸ hcm, herr⟩ (drain_poll_mutex total hd).2.2.1
        · simp only [List.cons_append, List.cons.injEq] at heq
          exact absurd ⟨heq.1 ▸ hcont q (by simp), herr⟩ (drain_poll_mutex total hd).2.1
    · rw [drain_cons_continue total hd rest hc, ih]
      constructor
      · rintro ⟨l₁, p, l₂, heq, hcont, hcm⟩
        refine ⟨hd :: l₁, p, l₂, by rw [heq]; rfl, ?_, hcm⟩
        intro q hq
        rcases List.mem_cons.mp hq with rfl | hq2
        · exact hc
        · exact hcont q hq2
      · rintro ⟨l₁, p, l₂, heq, hcont, hcm⟩
        rcases l₁ with _ | ⟨q, l₁⟩
        · simp only [List.nil_append, List.cons.injEq] at heq
          exact absurd ⟨hc, heq.1 ▸ hcm⟩ (drain_poll_mutex total hd).1
        · simp only [List.cons_append, List.cons.injEq] at heq
          exact ⟨l₁, p, l₂, heq.2, fun r hr => hcont r (List.mem_cons_of_mem q hr), hcm⟩

/-- The drain loop aborts with an error exactly when an error-class
observation is reached after only continue-class observations. -/
theorem drain_error_iff (total : Nat) :
    ∀ polls, drain_loop total polls = .abortError ↔
      ∃ l₁ p l₂, polls = l₁ ++ p :: l₂ ∧
        (∀ q ∈ l₁, drain_poll_continue total q) ∧ drain_poll_error total p := by
  intro polls
  induction polls with
  | nil =>
    simp only [drain_loop]
    constructor
    · intro h; cases h
    · rintro ⟨l₁, p, l₂, h, -, -⟩
      exact absurd h.symm (List.append_ne_nil_of_right_ne_nil l₁ (by simp))
  | cons hd rest ih =>
    rcases drain_poll_cases total hd with ht | hcm | herr | hc
    · rw [drain_cons_timeout total hd rest ht]
      constructor
      · intro h; cases h
      · rintro ⟨l₁, p, l₂, heq, hcont, her⟩
        rcases l₁ with _ | ⟨q, l₁⟩
        · simp only [List.nil_append, List.cons.injEq] at heq
          exact absurd ⟨heq.1 ▸ her, ht⟩ (drain_poll_mutex total hd).2.2.2.2.2
        · simp only [List.cons_append, List.cons.injEq] at heq
          exact absurd ⟨heq.1 ▸ hcont q (by simp), ht⟩ (drain_poll_mutex total hd).2.2.2.1
    · rw [drain_cons_commit total hd rest hcm]
      constructor
      · intro h; cases h
      · rintro ⟨l₁, p, l₂, heq, hcont, her⟩
        rcases l₁ with _ | ⟨q, l₁⟩
        · simp only [List.nil_append, List.cons.injEq] at heq
          exact absurd ⟨hcm, heq.1 ▸ her⟩ (drain_poll_mutex total hd).2.2.1
        · simp only [List.cons_append, List.cons.injEq] at heq
          exact absurd ⟨heq.1 ▸ hcont q (by simp), hcm⟩ (drain_poll_mutex total hd).1
    · rw [drain_cons_error total hd rest herr]
      exact ⟨fun _ => ⟨[], hd, rest, rfl, by simp, herr⟩, fun _ => rfl⟩
    · rw [drain_cons_continue total hd rest hc, ih]
      constructor
      · rintro ⟨l₁, p, l₂, heq, hcont, her⟩
        refine ⟨hd :: l₁, p, l₂, by rw [heq]; rfl, ?_, her⟩
        intro q hq
        rcases List.mem_cons.mp hq with rfl | hq2
        · exact hc
        · exact hcont q hq2
      · rintro ⟨l₁, p, l₂, heq, hcont, her⟩
        rcases l₁ with _ | ⟨q, l₁⟩
        · simp only [List.nil_append, List.cons.injEq] at heq
          exact absurd ⟨hc, heq.1 ▸ her⟩ (drain_poll_mutex total hd).2.1
        · simp only [List.cons_append, List.cons.injEq] at heq
          exact ⟨l₁, p, l₂, heq.2, fun r hr => hcont r (List.mem_cons_of_mem q hr), her⟩

/-- The drain loop aborts with a timeout exactly when an observation past
the 5-second window is reached after only continue-class observations. -/
theorem drain_timeout_iff (total : Nat) :
    ∀ polls, drain_loop total polls = .abortTimeout ↔
      ∃ l₁ p l₂, polls = l₁ ++ p :: l₂ ∧
        (∀ q ∈ l₁, drain_poll_continue total q) ∧ ¬ (p : ℚ × Nat × Nat).1 < 5 := by
  intro polls
  induction polls with
  | nil =>
    simp only [drain_loop]
    constructor
    · intro h; cases h
    · rintro ⟨l₁, p, l₂, h, -, -⟩
      exact absurd h.symm (List.append_ne_nil_of_right_ne_nil l₁ (by simp))
  | cons hd rest ih =>
    rcases drain_poll_cases total hd with ht | hcm | herr | hc
    · rw [drain_cons_timeout total hd rest ht]
      exact ⟨fun _ => ⟨[], hd, rest, rfl, by simp, ht⟩, fun _ => rfl⟩
    · rw [drain_cons_commit total hd rest hcm]
      constructor
      · intro h; cases h
      · rintro ⟨l₁, p, l₂, heq, hcont, htp⟩
        rcases l₁ with _ | ⟨q, l₁⟩
        · simp only [List.nil_append, List.cons.injEq] at heq
          exact absurd ⟨hcm, heq.1 ▸ htp⟩ (drain_poll_mutex total hd).2.2.2.2.1
        · simp only [List.cons_append, List.cons.injEq] at heq
          exact absurd ⟨heq.1 ▸ hcont q (by simp), hcm⟩ (drain_poll_mutex total hd).1
    · rw [drain_cons_error total hd rest herr]
      constructor
      · intro h; cases h
      · rintro ⟨l₁, p, l₂, heq, hcont, htp⟩
        rcases l₁ with _ | ⟨q, l₁⟩
        · simp only [List.nil_append, List.cons.injEq] at heq
          exact absurd ⟨herr, heq.1 ▸ htp⟩ (drain_poll_mutex total hd).2.2.2.2.2
        · simp only [List.cons_append, List.cons.injEq] at heq
          exact absurd ⟨heq.1 ▸ hcont q (by simp), herr⟩ (drain_poll_mutex total hd).2.1
    · rw [drain_cons_continue total hd rest hc, ih]
      constructor
      · rintro ⟨l₁, p, l₂, heq, hcont, htp⟩
        refine ⟨hd :: l₁, p, l₂, by rw [heq]; rfl, ?_, htp⟩
        intro q hq
        rcases List.mem_cons.mp hq with rfl | hq2
        · exact hc
        · exact hcont q hq2
      · rintro ⟨l₁, p, l₂, heq, hcont, htp⟩
        rcases l₁ with _ | ⟨q, l₁⟩
        · simp only [List.nil_append, List.cons.injEq] at heq
          exact absurd ⟨hc, heq.1 ▸ htp⟩ (drain_poll_mutex total hd).2.2.2.1
        · simp only [List.cons_append, List.cons.injEq] at heq
          exact ⟨l₁, p, l₂, heq.2, fun r hr => hcont r (List.mem_cons_of_mem q hr), htp⟩


/-- Step equations of the per-block loop at the empty block list: the
drain outcome decides commit/abort. -/
theorem upload_blocks_nil (env : UploadEnv) (cb : Option (Nat → Nat → Bool)) (total : Nat) :
    (drain_loop total env.drainPolls = .breakCommit →
      upload_blocks env cb total [] = some (true, [.commit])) ∧
    (drain_loop total env.drainPolls = .abortError →
      upload_blocks env cb total [] = some (false, [.abort])) ∧
    (drain_loop total env.drainPolls = .abortTimeout →
      upload_blocks env cb total [] = some (false, [.abort])) ∧
    (drain_loop total env.drainPolls = .exhausted →
      upload_blocks env cb total [] = none) := by
  refine ⟨fun h => ?_, fun h => ?_, fun h => ?_, fun h => ?_⟩ <;> simp only [upload_blocks, h]

/-- Step equation: exhausted gate polls stop the model. -/
theorem upload_blocks_cons_gate_none (env : UploadEnv) (cb : Option (Nat → Nat → Bool))
    (total i : Nat) (d : List Nat) (rest : List (Nat × List Nat))
    (h : wait_for_dfu_ready 30 (env.gatePolls i) = none) :
    upload_blocks env cb total ((i, d) :: rest) = none := by
  simp only [upload_blocks, h]

/-- Step equation: a failed readiness gate aborts and fails. -/
theorem upload_blocks_cons_gate_false (env : UploadEnv) (cb : Option (Nat → Nat → Bool))
    (total i : Nat) (d : List Nat) (rest : List (Nat × List Nat))
    (h : wait_for_dfu_ready 30 (env.gatePolls i) = some false) :
    upload_blocks env cb total ((i, d) :: rest) = some (false, [.abort]) := by
  simp only [upload_blocks, h]

/-- Step equation: a passed gate with no callback writes the block and
recurses. -/
theorem upload_blocks_cons_none_cb (env : UploadEnv) (total i : Nat) (d : List Nat)
    (rest : List (Nat × List Nat))
    (h : wait_for_dfu_ready 30 (env.gatePolls i) = some true) :
    upload_blocks env none total ((i, d) :: rest) =
      (upload_blocks env none total rest).map
        (fun r => (r.1, .blockWrite i d :: r.2)) := by
  simp only [upload_blocks, h]

/-- Step equation: a passed gate with a raising callback writes the
block, the callback raises, and the handler aborts and fails. -/
theorem upload_blocks_cons_raise (env : UploadEnv) (total i : Nat) (d : List Nat)
    (rest : List (Nat × List Nat)) (r : Nat → Nat → Bool)
    (h : wait_for_dfu_ready 30 (env.gatePolls i) = some true)
    (hr : r (i + 1) total = true) :
    upload_blocks env (some r) total ((i, d) :: rest) =
      some (false, [.blockWrite i d, .progressCall (i + 1) total, .abort]) := by
  simp [upload_blocks, h, hr]

/-- Step equation: a passed gate with a non-raising callback writes the
block, invokes the callback, and recurses. -/
theorem upload_blocks_cons_noraise (env : UploadEnv) (total i : Nat) (d : List Nat)
    (rest : List (Nat × List Nat)) (r : Nat → Nat → Bool)
    (h : wait_for_dfu_ready 30 (env.gatePolls i) = some true)
    (hr : r (i + 1) total = false) :
    upload_blocks env (some r) total ((i, d) :: rest) =
      (upload_blocks env (some r) total rest).map
        (fun r2 => (r2.1, .blockWrite i d :: .progressCall (i + 1) total :: r2.2)) := by
  simp [upload_blocks, h, hr]

/-- Outcome discipline of the per-block loop: a successful result carries
a commit effect, no abort effect, and a drain loop that broke to commit;
a failed result carries an abort effect and no commit effect. -/
theorem upload_blocks_spec (env : UploadEnv) (cb : Option (Nat → Nat → Bool)) (total : Nat) :
    ∀ (L : List (Nat × List Nat)) (b : Bool) (effs : List Effect),
      upload_blocks env cb total L = some (b, effs) →
      (b = true → Effect.commit ∈ effs ∧ Effect.abort ∉ effs ∧
        drain_loop total env.drainPolls = .breakCommit) ∧
      (b = false → Effect.abort ∈ effs ∧ Effect.commit ∉ effs) := by
  intro L
  induction L with
  | nil =>
    intro b effs h
    rcases hd : drain_loop total env.drainPolls
    · rw [(upload_blocks_nil env cb total).1 hd, Option.some.injEq, Prod.mk.injEq] at h
      obtain ⟨hb, he⟩ := h
      subst hb
      subst he
      constructor
      · intro hx
        refine ⟨by simp, by simp, rfl⟩
      · intro hf
        simp at hf
    · rw [(upload_blocks_nil env cb total).2.1 hd, Option.some.injEq, Prod.mk.injEq] at h
      obtain ⟨hb, he⟩ := h
      subst hb
      subst he
      constructor
      · intro ht
        simp at ht
      · intro hx
        refine ⟨by simp, by simp⟩
    · rw [(upload_blocks_nil env cb total).2.2.1 hd, Option.some.injEq, Prod.mk.injEq] at h
      obtain ⟨hb, he⟩ := h
      subst hb
      subst he
      constructor
      · intro ht
        simp at ht
      · intro hx
        refine ⟨by simp, by simp⟩
    · rw [(upload_blocks_nil env cb total).2.2.2 hd] at h
      cases h
  | cons hd rest ih =>
    obtain ⟨i, d⟩ := hd
    intro b effs h
    rcases hw : wait_for_dfu_ready 30 (env.gatePolls i) with _ | bw
    · rw [upload_blocks_cons_gate_none env cb total i d rest hw] at h
      cases h
    · cases bw
      · rw [upload_blocks_cons_gate_false env cb total i d rest hw,
          Option.some.injEq, Prod.mk.injEq] at h
        obtain ⟨hb, he⟩ := h
        subst hb
        subst he
        constructor
        · intro ht
          simp at ht
        · intro hx
          refine ⟨by simp, by simp⟩
      · rcases cb with _ | r
        · rw [upload_blocks_cons_none_cb env total i d rest hw] at h
          rcases hrest : upload_blocks env none total rest with _ | ⟨b2, e2⟩ <;>
            rw [hrest] at h
          · cases h
          · simp only [Option.map_some', Option.some.injEq, Prod.mk.injEq] at h
            obtain ⟨hb, he⟩ := h
            subst hb
            subst he
            have hspec := ih b2 e2 hrest
            constructor
            · intro ht
              obtain ⟨h1, h2, h3⟩ := hspec.1 ht
              refine ⟨by simp [h1], by simp [h2], h3⟩
            · intro hf
              obtain ⟨h1, h2⟩ := hspec.2 hf
              refine ⟨by simp [h1], by simp [h2]⟩
        · by_cases hr : r (i + 1) total = true
          · rw [upload_blocks_cons_raise env total i d rest r hw hr,
              Option.some.injEq, Prod.mk.injEq] at h
            obtain ⟨hb, he⟩ := h
            subst hb
            subst he
            constructor
            · intro ht
              simp at ht
            · intro hx
              refine ⟨by simp, by simp⟩
          · have hr2 : r (i + 1) total = false := by
              revert hr
              cases r (i + 1) total <;> simp
            rw [upload_blocks_cons_noraise env total i d rest r hw hr2] at h
            rcases hrest : upload_blocks env (some r) total rest with _ | ⟨b2, e2⟩ <;>
              rw [hrest] at h
            · cases h
            · simp only [Option.map_some', Option.some.injEq, Prod.mk.injEq] at h
              obtain ⟨hb, he⟩ := h
              subst hb
              subst he
              have hspec := ih b2 e2 hrest
              constructor
              · intro ht
                obtain ⟨h1, h2, h3⟩ := hspec.1 ht
                refine ⟨by simp [h1], by simp [h2], h3⟩
              · intro hf
                obtain ⟨h1, h2⟩ := hspec.2 hf
                refine ⟨by simp [h1], by simp [h2]⟩

/-- Unfolding of the entry point around the per-block loop: the entry
point only prepends the start-update effect. -/
theorem upload_firmware_eq (fw : List Nat) (cb : Option (Nat → Nat → Bool))
    (env : UploadEnv) (b : Bool) (effs : List Effect) :
    upload_firmware_with_progress fw cb env = some (b, effs) ↔
      ∃ effs2, upload_blocks env cb (total_blocks fw.length) (block_list fw) =
        some (b, effs2) ∧ effs = .startUpdate fw.length :: effs2 := by
  unfold upload_firmware_with_progress
  rcases h : upload_blocks env cb (total_blocks fw.length) (block_list fw) with _ | ⟨b2, e2⟩
  · simp
  · simp only [Option.map_some', Option.some.injEq, Prod.mk.injEq]
    aesop

/-- C3 (amended): the upload entry point returns success only with a
commit effect (and no abort effect), and only when the drain loop broke
on an observation with status READY_TO_COMMIT and blocks-written equal to
the total block count inside the 5-second window, preceded only by
continue-class observations; it aborts with failure exactly on a
CRC_ERROR, PROTOCOL_ERROR, or WRITE_ERROR status or on exceeding the
window — DATA_LENGTH_ERROR is not in the drain loop's error set, so such
an observation is skipped rather than aborted on. -/
theorem C3_success_requires_commit :
    (∀ fw cb env b effs,
      upload_firmware_with_progress fw cb env = some (b, effs) →
      (b = true → Effect.commit ∈ effs ∧ Effect.abort ∉ effs ∧
        drain_loop (total_blocks fw.length) env.drainPolls = .breakCommit) ∧
      (b = false → Effect.abort ∈ effs ∧ Effect.commit ∉ effs)) ∧
    (∀ total polls, drain_loop total polls = .breakCommit ↔
      ∃ l₁ p l₂, polls = l₁ ++ p :: l₂ ∧
        (∀ q ∈ l₁, drain_poll_continue total q) ∧ drain_poll_commit total p) ∧
    (∀ total polls, drain_loop total polls = .abortError ↔
      ∃ l₁ p l₂, polls = l₁ ++ p :: l₂ ∧
        (∀ q ∈ l₁, drain_poll_continue total q) ∧ drain_poll_error total p) ∧
    (∀ total polls, drain_loop total polls = .abortTimeout ↔
      ∃ l₁ p l₂, polls = l₁ ++ p :: l₂ ∧
        (∀ q ∈ l₁, drain_poll_continue total q) ∧ ¬ (p : ℚ × Nat × Nat).1 < 5) := by
  refine ⟨?_, drain_commit_iff, drain_error_iff, drain_timeout_iff⟩
  intro fw cb env b effs h
  obtain ⟨effs2, h2, he⟩ := (upload_firmware_eq fw cb env b effs).mp h
  have hspec := upload_blocks_spec env cb (total_blocks fw.length) (block_list fw) b effs2 h2
  subst he
  constructor
  · intro ht
    obtain ⟨h1, hna, h3⟩ := hspec.1 ht
    refine ⟨by simp [h1], by simp [hna], h3⟩
  · intro hf
    obtain ⟨h1, hnc⟩ := hspec.2 hf
    refine ⟨by simp [h1], by simp [hnc]⟩

/-- C3 counterexample: the drain loop observes the error status
DATA_LENGTH_ERROR (status byte 6) and then READY_TO_COMMIT with a
matching block count, and the upload commits and returns success: an
error status in the drain phase does not abort the transfer as the claim
requires. -/
theorem C3_counterexample :
    get_dfu_status 6 = DFUState.DATA_LENGTH_ERROR ∧
    upload_firmware_with_progress [0] none drainEnvA =
      some (true, [.startUpdate 1, .blockWrite 0 [0], .commit]) :=
  ⟨by decide, by decide⟩

/-- C3 witness: a one-block upload that succeeds, instantiating the
theorem: the commit effect is present and the drain loop broke to
commit. -/
theorem C3_witness :
    upload_firmware_with_progress [0] none drainEnvB =
      some (true, [Effect.startUpdate 1, Effect.blockWrite 0 [0], Effect.commit]) ∧
    Effect.commit ∈ [Effect.startUpdate 1, Effect.blockWrite 0 [0], Effect.commit] ∧
    drain_loop (total_blocks 1) drainEnvB.drainPolls = DrainOutcome.breakCommit := by
  have h := (C3_success_requires_commit.1 [0] none drainEnvB true
      [Effect.startUpdate 1, Effect.blockWrite 0 [0], Effect.commit] (by decide)).1 rfl
  exact ⟨by decide, h.1, h.2.2⟩

/-- A callback that never raises does not change the success/failure
outcome of the per-block loop. -/
theorem upload_blocks_cb_no_raise (env : UploadEnv) (total : Nat) (r : Nat → Nat → Bool)
    (hr : ∀ a b2, r a b2 = false) :
    ∀ L, (upload_blocks env (some r) total L).map (fun x => x.1) =
      (upload_blocks env none total L).map (fun x => x.1) := by
  intro L
  induction L with
  | nil => rfl
  | cons hd rest ih =>
    obtain ⟨i, d⟩ := hd
    rcases hw : wait_for_dfu_ready 30 (env.gatePolls i) with _ | bw
    · rw [upload_blocks_cons_gate_none env (some r) total i d rest hw,
        upload_blocks_cons_gate_none env none total i d rest hw]
    · cases bw
      · rw [upload_blocks_cons_gate_false env (some r) total i d rest hw,
          upload_blocks_cons_gate_false env none total i d rest hw]
      · rw [upload_blocks_cons_noraise env total i d rest r hw (hr (i + 1) total),
          upload_blocks_cons_none_cb env total i d rest hw]
        simp only [Option.map_map, Function.comp_def]
        exact ih

/-- In a successful run with a callback, the callback was invoked after
every block of the list. -/
theorem upload_blocks_progress (env : UploadEnv) (total : Nat) (r : Nat → Nat → Bool) :
    ∀ (L : List (Nat × List Nat)) (b : Bool) (effs : List Effect),
      upload_blocks env (some r) total L = some (b, effs) → b = true →
      ∀ i d, (i, d) ∈ L → Effect.progressCall (i + 1) total ∈ effs := by
  intro L
  induction L with
  | nil =>
    intro b effs h hb i d hm
    simp at hm
  | cons hd rest ih =>
    obtain ⟨j, dj⟩ := hd
    intro b effs h hb i d hm
    subst hb
    rcases hw : wait_for_dfu_ready 30 (env.gatePolls j) with _ | bw
    · rw [upload_blocks_cons_gate_none env (some r) total j dj rest hw] at h
      cases h
    · cases bw
      · rw [upload_blocks_cons_gate_false env (some r) total j dj rest hw,
          Option.some.injEq, Prod.mk.injEq] at h
        simp at h
      · by_cases hraise : r (j + 1) total = true
        · rw [upload_blocks_cons_raise env total j dj rest r hw hraise,
            Option.some.injEq, Prod.mk.injEq] at h
          simp at h
        · have hr2 : r (j + 1) total = false := by
            revert hraise
            cases r (j + 1) total <;> simp
          rw [upload_blocks_cons_noraise env total j dj rest r hw hr2] at h
          rcases hrest : upload_blocks env (some r) total rest with _ | ⟨b2, e2⟩ <;>
            rw [hrest] at h
          · cases h
          · simp only [Option.map_some', Option.some.injEq, Prod.mk.injEq] at h
            obtain ⟨hb2, he⟩ := h
            subst he
            rcases List.mem_cons.mp hm with hm1 | hm2
            · obtain ⟨hi, -⟩ := Prod.mk.injEq .. ▸ hm1
              subst hi
              simp
            · have := ih b2 e2 hrest hb2 i d hm2
              simp [this]

/-- Every block index below the total block count appears in the block
list with its data slice. -/
theorem block_list_mem (fw : List Nat) (i : Nat) (h : i < total_blocks fw.length) :
    (i, (fw.drop (i * FLASH_BLOCK_SIZE)).take FLASH_BLOCK_SIZE) ∈ block_list fw := by
  unfold block_list
  exact List.mem_map.mpr ⟨i, List.mem_range.mpr h, rfl⟩

/-- Every block written in any run with a callback is followed by a
recorded progress-callback invocation with (block index + 1, total),
whether the run later succeeds or aborts. -/
theorem upload_blocks_write_implies_progress (env : UploadEnv) (total : Nat)
    (r : Nat → Nat → Bool) :
    ∀ (L : List (Nat × List Nat)) (b : Bool) (effs : List Effect),
      upload_blocks env (some r) total L = some (b, effs) →
      ∀ i d, Effect.blockWrite i d ∈ effs → Effect.progressCall (i + 1) total ∈ effs := by
  intro L
  induction L with
  | nil =>
    intro b effs h i d hm
    rcases hd : drain_loop total env.drainPolls
    · rw [(upload_blocks_nil env (some r) total).1 hd, Option.some.injEq,
        Prod.mk.injEq] at h
      obtain ⟨-, he⟩ := h
      subst he
      simp at hm
    · rw [(upload_blocks_nil env (some r) total).2.1 hd, Option.some.injEq,
        Prod.mk.injEq] at h
      obtain ⟨-, he⟩ := h
      subst he
      simp at hm
    · rw [(upload_blocks_nil env (some r) total).2.2.1 hd, Option.some.injEq,
        Prod.mk.injEq] at h
      obtain ⟨-, he⟩ := h
      subst he
      simp at hm
    · rw [(upload_blocks_nil env (some r) total).2.2.2 hd] at h
      cases h
  | cons hd rest ih =>
    obtain ⟨j, dj⟩ := hd
    intro b effs h i d hm
    rcases hw : wait_for_dfu_ready 30 (env.gatePolls j) with _ | bw
    · rw [upload_blocks_cons_gate_none env (some r) total j dj rest hw] at h
      cases h
    · cases bw
      · rw [upload_blocks_cons_gate_false env (some r) total j dj rest hw,
          Option.some.injEq, Prod.mk.injEq] at h
        obtain ⟨-, he⟩ := h
        subst he
        simp at hm
      · by_cases hraise : r (j + 1) total = true
        · rw [upload_blocks_cons_raise env total j dj rest r hw hraise,
            Option.some.injEq, Prod.mk.injEq] at h
          obtain ⟨-, he⟩ := h
          subst he
          simp at hm
          obtain ⟨hi, -⟩ := hm
          subst hi
          simp
        · have hr2 : r (j + 1) total = false := by
            revert hraise
            cases r (j + 1) total <;> simp
          rw [upload_blocks_cons_noraise env total j dj rest r hw hr2] at h
          rcases hrest : upload_blocks env (some r) total rest with _ | ⟨b2, e2⟩ <;>
            rw [hrest] at h
          · cases h
          · simp only [Option.map_some', Option.some.injEq, Prod.mk.injEq] at h
            obtain ⟨-, he⟩ := h
            subst he
            simp at hm
            rcases hm with ⟨hi, -⟩ | hm1
            · subst hi
              simp
            · have := ih b2 e2 hrest i d hm1
              simp [this]

/-- A successful run with a callback implies the callback raised on no
invocation. -/
theorem upload_blocks_success_no_raise (env : UploadEnv) (total : Nat)
    (r : Nat → Nat → Bool) :
    ∀ (L : List (Nat × List Nat)) (b : Bool) (effs : List Effect),
      upload_blocks env (some r) total L = some (b, effs) → b = true →
      ∀ i d, (i, d) ∈ L → r (i + 1) total = false := by
  intro L
  induction L with
  | nil =>
    intro b effs h hb i d hm
    simp at hm
  | cons hd rest ih =>
    obtain ⟨j, dj⟩ := hd
    intro b effs h hb i d hm
    subst hb
    rcases hw : wait_for_dfu_ready 30 (env.gatePolls j) with _ | bw
    · rw [upload_blocks_cons_gate_none env (some r) total j dj rest hw] at h
      cases h
    · cases bw
      · rw [upload_blocks_cons_gate_false env (some r) total j dj rest hw,
          Option.some.injEq, Prod.mk.injEq] at h
        simp at h
      · by_cases hraise : r (j + 1) total = true
        · rw [upload_blocks_cons_raise env total j dj rest r hw hraise,
            Option.some.injEq, Prod.mk.injEq] at h
          simp at h
        · have hr2 : r (j + 1) total = false := by
            revert hraise
            cases r (j + 1) total <;> simp
          rw [upload_blocks_cons_noraise env total j dj rest r hw hr2] at h
          rcases hrest : upload_blocks env (some r) total rest with _ | ⟨b2, e2⟩ <;>
            rw [hrest] at h
          · cases h
          · simp only [Option.map_some', Option.some.injEq, Prod.mk.injEq] at h
            obtain ⟨hb2, -⟩ := h
            rcases List.mem_cons.mp hm with hm1 | hm2
            · obtain ⟨hi, -⟩ := Prod.mk.injEq .. ▸ hm1
              subst hi
              exact hr2
            · exact ih b2 e2 hrest hb2 i d hm2

/-- If every earlier block's gate passes and its callback invocation does
not raise, and some later block's gate passes but the callback raises on
its invocation, the per-block loop aborts and fails — wherever in the
list that block sits. -/
theorem upload_blocks_raise_anywhere (env : UploadEnv) (total : Nat)
    (r : Nat → Nat → Bool) :
    ∀ (L₁ : List (Nat × List Nat)) (i : Nat) (d : List Nat) (L₂ : List (Nat × List Nat)),
      (∀ q ∈ L₁, wait_for_dfu_ready 30 (env.gatePolls q.1) = some true ∧
        r (q.1 + 1) total = false) →
      wait_for_dfu_ready 30 (env.gatePolls i) = some true →
      r (i + 1) total = true →
      ∃ effs, upload_blocks env (some r) total (L₁ ++ (i, d) :: L₂) =
        some (false, effs) ∧ Effect.abort ∈ effs ∧ Effect.commit ∉ effs := by
  intro L₁
  induction L₁ with
  | nil =>
    intro i d L₂ hL hg hr
    refine ⟨[.blockWrite i d, .progressCall (i + 1) total, .abort], ?_, by simp, by simp⟩
    simpa using upload_blocks_cons_raise env total i d L₂ r hg hr
  | cons q L₁ ih =>
    obtain ⟨j, dj⟩ := q
    intro i d L₂ hL hg hr
    obtain ⟨hgj, hrj⟩ := hL (j, dj) (by simp)
    obtain ⟨effs, heq, ha, hc⟩ :=
      ih i d L₂ (fun q hq => hL q (List.mem_cons_of_mem _ hq)) hg hr
    refine ⟨.blockWrite j dj :: .progressCall (j + 1) total :: effs, ?_,
      by simp [ha], by simp [hc]⟩
    rw [List.cons_append, upload_blocks_cons_noraise env total j dj _ r hgj hrj, heq]
    rfl

/-- C5 (amended): the progress callback is invoked after each accepted
(written) block with (blocks_done, blocks_total), in successful and
aborted runs alike; a callback that never raises leaves the outcome
identical to a run with no callback, and a successful run implies no
invocation raised; but a raised exception in the callback — at whatever
block position it occurs — is caught by the upload routine's general
exception handler, which issues a best-effort abort and returns failure:
a callback failure does abort the transfer. -/
theorem C5_progress_callback :
    (∀ fw env (r : Nat → Nat → Bool), (∀ a b2, r a b2 = false) →
      (upload_firmware_with_progress fw (some r) env).map (fun x => x.1) =
        (upload_firmware_with_progress fw none env).map (fun x => x.1)) ∧
    (∀ fw env r b effs, upload_firmware_with_progress fw (some r) env = some (b, effs) →
      ∀ i d, Effect.blockWrite i d ∈ effs →
        Effect.progressCall (i + 1) (total_blocks fw.length) ∈ effs) ∧
    (∀ fw env r b effs, upload_firmware_with_progress fw (some r) env = some (b, effs) →
      b = true → ∀ i, i < total_blocks fw.length →
        Effect.progressCall (i + 1) (total_blocks fw.length) ∈ effs) ∧
    (∀ fw env r b effs, upload_firmware_with_progress fw (some r) env = some (b, effs) →
      b = true → ∀ i d, (i, d) ∈ block_list fw →
        r (i + 1) (total_blocks fw.length) = false) ∧
    (∀ fw env (r : Nat → Nat → Bool) L₁ i d L₂,
      block_list fw = L₁ ++ (i, d) :: L₂ →
      (∀ q ∈ L₁, wait_for_dfu_ready 30 (env.gatePolls q.1) = some true ∧
        r (q.1 + 1) (total_blocks fw.length) = false) →
      wait_for_dfu_ready 30 (env.gatePolls i) = some true →
      r (i + 1) (total_blocks fw.length) = true →
      ∃ effs, upload_firmware_with_progress fw (some r) env = some (false, effs) ∧
        Effect.abort ∈ effs ∧ Effect.commit ∉ effs) := by
  refine ⟨?_, ?_, ?_, ?_, ?_⟩
  · intro fw env r hr
    unfold upload_firmware_with_progress
    simp only [Option.map_map, Function.comp_def]
    exact upload_blocks_cb_no_raise env (total_blocks fw.length) r hr (block_list fw)
  · intro fw env r b effs h i d hm
    obtain ⟨effs2, h2, he⟩ := (upload_firmware_eq fw (some r) env b effs).mp h
    subst he
    have hm2 : Effect.blockWrite i d ∈ effs2 := by
      rcases List.mem_cons.mp hm with hm1 | hm1
      · cases hm1
      · exact hm1
    have := upload_blocks_write_implies_progress env (total_blocks fw.length) r
      (block_list fw) b effs2 h2 i d hm2
    simp [this]
  · intro fw env r b effs h hb i hi
    obtain ⟨effs2, h2, he⟩ := (upload_firmware_eq fw (some r) env b effs).mp h
    subst he
    have := upload_blocks_progress env (total_blocks fw.length) r (block_list fw) b effs2
      h2 hb i _ (block_list_mem fw i hi)
    simp [this]
  · intro fw env r b effs h hb i d hm
    obtain ⟨effs2, h2, -⟩ := (upload_firmware_eq fw (some r) env b effs).mp h
    exact upload_blocks_success_no_raise env (total_blocks fw.length) r (block_list fw)
      b effs2 h2 hb i d hm
  · intro fw env r L₁ i d L₂ hbl hL hg hr
    obtain ⟨effs2, heq, ha, hc⟩ := upload_blocks_raise_anywhere env
      (total_blocks fw.length) r L₁ i d L₂ hL hg hr
    refine ⟨Effect.startUpdate fw.length :: effs2, ?_, by simp [ha], by simp [hc]⟩
    refine (upload_firmware_eq fw (some r) env false _).mpr ⟨effs2, ?_, rfl⟩
    rw [hbl]
    exact heq

/-- C5 counterexample: on the same environment and one-block firmware, an
upload with no callback succeeds, while an upload whose callback raises
returns failure: a callback failure does abort the transfer, and the
outcome differs from the run with no callback. -/
theorem C5_counterexample :
    (upload_firmware_with_progress [0] none drainEnvB).map (fun x => x.1) = some true ∧
    (upload_firmware_with_progress [0] (some fun _ _ => true) drainEnvB).map
      (fun x => x.1) = some false :=
  ⟨by decide, by decide⟩

/-- C5 witness: the theorem's raising-callback clause instantiated at a
one-block firmware whose gate passes, with the raising block at position
zero of the block list: the upload fails with an abort effect and no
commit effect. -/
theorem C5_witness :
    ∃ effs, upload_firmware_with_progress [0] (some fun _ _ => true) drainEnvB =
      some (false, effs) ∧ Effect.abort ∈ effs ∧ Effect.commit ∉ effs :=
  C5_progress_callback.2.2.2.2 [0] drainEnvB (fun _ _ => true) [] 0 [0] []
    (by decide) (by simp) (by decide) rfl

end Halpi
